import Mathlib

/-!
Verification of the Mentis-CLI agent-orchestration core against its
natural-language specification.

The development shallowly embeds the relevant TypeScript components:
* `ConversationCompacter.compact` (src/utils/ConversationCompacter.ts)
* `JsonRpcClient` request/response correlation (subprocess RPC client)
* `PersistentShell` sentinel protocol (persistent command session)
* `McpToolAdapter.execute` (src/mcp/McpClient.ts)
* the tool-execution loop of `ReplManager.handleChat` (src/repl/ReplManager.ts)

Asynchronous operations (model calls, subprocess writes, promise
resolution) are modelled by explicit state passing: each component's
mutable fields become a state record, promise resolutions are logged in
order, and external results (the summarisation model call, the remote
RPC response, the shell's output chunks) are supplied as parameters.
-/

/-! ## Message data model (src/llm/ModelInterface.ts) -/

/-- The four chat roles of `ChatMessage.role`. -/
inductive Role where
  | system
  | user
  | assistant
  | tool
deriving DecidableEq, Repr

/-- A chat message, as in `ModelInterface.ChatMessage`; `tool_calls` is
omitted because none of the embedded operations inspects it. -/
structure ChatMessage where
  role : Role
  content : String
  tool_call_id : Option String := none
  name : Option String := none
deriving DecidableEq, Repr

/-! ## ConversationCompacter (src/utils/ConversationCompacter.ts) -/

namespace ConversationCompacter

/-- The partition test of `compact`: messages with role `system` or
`tool` are preserved, all others go to the `toCompact` list. -/
def isPreservedMsg (m : ChatMessage) : Bool :=
  m.role == Role.system || m.role == Role.tool

/-- The single summarizing message pushed by `compact`
(`role: 'system'`, content prefixed by the summary banner). -/
def summaryMessage (summary : String) : ChatMessage :=
  { role := Role.system
    content := "[Previous Conversation Summary]\n" ++ summary }

/-- `ConversationCompacter.compact`.  The call
`modelClient.chat([{role:'user',content:compactPrompt}], [])` is an
external effect; its outcome is passed as `chatResult` (`Except.ok`
carries the returned summary content, `Except.error` models a thrown
failure, which the source catches and answers with the original
history). -/
def compact (history : List ChatMessage) (chatResult : Except String String) :
    List ChatMessage :=
  let preserved := history.filter isPreservedMsg
  let toCompact := history.filter (fun m => ! isPreservedMsg m)
  if toCompact.isEmpty then history
  else
    match chatResult with
    | Except.error _ => history
    | Except.ok summary => preserved ++ [summaryMessage summary]

end ConversationCompacter

namespace ConversationCompacter

lemma isPreservedMsg_summary (s : String) :
    isPreservedMsg (summaryMessage s) = true := by
  simp [isPreservedMsg, summaryMessage]

lemma compact_ok_of_ne (history : List ChatMessage) (s : String)
    (h : history.filter (fun m => ! isPreservedMsg m) ≠ []) :
    compact history (Except.ok s) =
      history.filter isPreservedMsg ++ [summaryMessage s] := by
  simp only [compact]
  rw [if_neg]
  simp [List.isEmpty_iff, h]

lemma compact_error (history : List ChatMessage) (e : String) :
    compact history (Except.error e) = history := by
  simp only [compact]
  split <;> rfl

lemma compact_of_all_preserved (history : List ChatMessage)
    (h : ∀ m ∈ history, isPreservedMsg m = true) (r : Except String String) :
    compact history r = history := by
  have : history.filter (fun m => ! isPreservedMsg m) = [] := by
    rw [List.filter_eq_nil_iff]
    intro m hm
    simp [h m hm]
  simp [compact, this]

end ConversationCompacter

/-- C2: compacting a history preserves every `system`/`tool` message
verbatim (the compacted history is exactly those messages followed by
one summarizing `system` message, whenever there was anything to
compact), compacting an already-compacted history returns it unchanged,
and a failed summarization model call returns the original history
unchanged. -/
theorem compaction_round_trip (history : List ChatMessage) (s e : String)
    (r2 : Except String String) :
    (history.filter (fun m => ! ConversationCompacter.isPreservedMsg m) ≠ [] →
      ConversationCompacter.compact history (Except.ok s) =
        history.filter ConversationCompacter.isPreservedMsg ++
          [ConversationCompacter.summaryMessage s]) ∧
    ConversationCompacter.compact
        (ConversationCompacter.compact history (Except.ok s)) r2 =
      ConversationCompacter.compact history (Except.ok s) ∧
    ConversationCompacter.compact history (Except.error e) = history := by
  refine ⟨fun h => ConversationCompacter.compact_ok_of_ne history s h, ?_,
    ConversationCompacter.compact_error history e⟩
  by_cases h : history.filter (fun m => ! ConversationCompacter.isPreservedMsg m) = []
  · have hall : ∀ m ∈ history, ConversationCompacter.isPreservedMsg m = true := by
      intro m hm
      by_contra hc
      have : m ∈ history.filter (fun m => ! ConversationCompacter.isPreservedMsg m) := by
        rw [List.mem_filter]
        exact ⟨hm, by simp [hc]⟩
      simp [h] at this
    rw [ConversationCompacter.compact_of_all_preserved history hall]
    exact ConversationCompacter.compact_of_all_preserved history hall r2
  · rw [ConversationCompacter.compact_ok_of_ne history s h]
    apply ConversationCompacter.compact_of_all_preserved
    intro m hm
    rcases List.mem_append.1 hm with hm | hm
    · exact (List.mem_filter.1 hm).2
    · simp only [List.mem_singleton] at hm
      subst hm
      exact ConversationCompacter.isPreservedMsg_summary s

/-- Witness for C2 at a concrete two-message history. -/
theorem compaction_round_trip_witness :
    ConversationCompacter.compact
        [{ role := Role.system, content := "sys" },
         { role := Role.user, content := "hello" }] (Except.ok "sum") =
      [{ role := Role.system, content := "sys" },
       ConversationCompacter.summaryMessage "sum"] :=
  (compaction_round_trip
      [{ role := Role.system, content := "sys" },
       { role := Role.user, content := "hello" }] "sum" "err"
      (Except.ok "x")).1 (by decide)

/-! ## JsonRpcClient (src/mcp/JsonRpcClient.ts) -/

namespace JsonRpcClient

/-- Outcome delivered to a pending request's promise: `resolve(result)`
or `reject(new Error(message))`. -/
inductive RpcOutcome where
  | resolved (value : String)
  | rejected (message : String)
deriving DecidableEq, Repr

/-- A parsed line on the client's stdout, restricted to the fields
`handleMessage` inspects.  Request ids generated by this client are
numbers (`this.sequence++`), so ids are modelled as `Nat`. -/
structure RpcMessage where
  id : Option Nat
  result : Option String
  error : Option String
deriving DecidableEq, Repr

/-- The client's mutable fields plus a log of promise settlements:
`sequence` is the id counter, `pending` the key set of the
`pendingRequests` map, and `outcomes` records each `resolve`/`reject`
call in the order it happened. -/
structure RpcState where
  sequence : Nat
  pending : List Nat
  outcomes : List (Nat × RpcOutcome)
deriving DecidableEq, Repr

/-- The state of a freshly constructed client. -/
def initialRpcState : RpcState := { sequence := 0, pending := [], outcomes := [] }

/-- `JsonRpcClient.sendRequest`: take the next id from the counter and
register the pending entry; if the write to the child's stdin throws
(`writeOk = false`), the entry is deleted again and the promise is
rejected.  Returns the new state and the id used. -/
def sendRequest (s : RpcState) (writeOk : Bool) : RpcState × Nat :=
  let id := s.sequence
  if writeOk then
    ({ s with
        sequence := id + 1
        pending := s.pending ++ [id] }, id)
  else
    ({ s with
        sequence := id + 1
        outcomes := s.outcomes ++ [(id, RpcOutcome.rejected "stdin write failed")] }, id)

/-- `JsonRpcClient.handleMessage` on an already-parsed message: a
message with an id and a `result` or `error` field is a response; its
handler (if any) is removed from the map, then rejected with the error
message or resolved with the result.  Anything else is ignored. -/
def handleMessage (s : RpcState) (m : RpcMessage) : RpcState :=
  match m.id with
  | none => s
  | some i =>
    if m.result.isSome || m.error.isSome then
      if s.pending.contains i then
        let removed : RpcState := { s with pending := s.pending.filter (fun j => j != i) }
        match m.error with
        | some e => { removed with outcomes := removed.outcomes ++ [(i, RpcOutcome.rejected e)] }
        | none =>
          { removed with
            outcomes := removed.outcomes ++ [(i, RpcOutcome.resolved (m.result.getD ""))] }
      else s
    else s

/-- Deliver a list of stdout lines in order. -/
def handleMessages (s : RpcState) (ms : List RpcMessage) : RpcState :=
  ms.foldl handleMessage s

/-- Issue `n` requests back to back (all stdin writes succeeding). -/
def sendRequests (s : RpcState) : Nat → RpcState
  | 0 => s
  | n + 1 => sendRequests (sendRequest s true).1 n

/-- A successful response for request `i` carrying `payload`. -/
def responseFor (i : Nat) (payload : String) : RpcMessage :=
  { id := some i, result := some payload, error := none }

lemma sendRequests_spec (q : Nat) (p : List Nat) (o : List (Nat × RpcOutcome)) :
    ∀ n, sendRequests ⟨q, p, o⟩ n = ⟨q + n, p ++ List.range' q n, o⟩ := by
  intro n
  induction n generalizing q p with
  | zero => simp [sendRequests]
  | succ n ih =>
    rw [sendRequests, sendRequest]
    simp only [if_pos]
    rw [ih (q + 1) (p ++ [q])]
    have : p ++ [q] ++ List.range' (q + 1) n = p ++ List.range' q (n + 1) := by
      rw [List.range'_succ, List.append_assoc]
      rfl
    rw [this]
    congr 1
    omega

lemma handleMessage_responseFor_mem (s : RpcState) (i : Nat) (p : String)
    (h : i ∈ s.pending) :
    handleMessage s (responseFor i p) =
      { s with pending := s.pending.filter (fun j => j != i),
               outcomes := s.outcomes ++ [(i, RpcOutcome.resolved p)] } := by
  simp [handleMessage, responseFor, List.elem_iff, h]

lemma handleMessage_responseFor_not_mem (s : RpcState) (i : Nat) (p : String)
    (h : i ∉ s.pending) :
    handleMessage s (responseFor i p) = s := by
  simp only [handleMessage, responseFor, Option.isSome_some, Bool.true_or, if_true]
  rw [if_neg]
  simp [List.elem_iff, h]

lemma handleMessages_correlate (payload : Nat → String) :
    ∀ (l : List Nat) (s : RpcState), l.Nodup → (∀ i ∈ l, i ∈ s.pending) →
      ((handleMessages s (l.map fun i => responseFor i (payload i))).outcomes
          = s.outcomes ++ l.map (fun i => (i, RpcOutcome.resolved (payload i)))) ∧
      (∀ j, j ∈ (handleMessages s (l.map fun i => responseFor i (payload i))).pending ↔
        (j ∈ s.pending ∧ j ∉ l)) := by
  intro l
  induction l with
  | nil => intro s _ _; simp [handleMessages]
  | cons i rest ih =>
    intro s hnd hmem
    have hi : i ∈ s.pending := hmem i (List.mem_cons_self i rest)
    rw [List.map_cons]
    have hstep := handleMessage_responseFor_mem s i (payload i) hi
    have hfold :
        handleMessages s (responseFor i (payload i) ::
            rest.map fun j => responseFor j (payload j)) =
          handleMessages (handleMessage s (responseFor i (payload i)))
            (rest.map fun j => responseFor j (payload j)) := rfl
    rw [hfold, hstep]
    have hnd' := (List.nodup_cons.1 hnd)
    have hrest : ∀ j ∈ rest,
        j ∈ (s.pending.filter (fun j => j != i)) := by
      intro j hj
      rw [List.mem_filter]
      refine ⟨hmem j (List.mem_cons_of_mem i hj), ?_⟩
      have : j ≠ i := by
        intro h; subst h; exact hnd'.1 hj
      simp [this]
    have := ih { s with pending := s.pending.filter (fun j => j != i),
                        outcomes := s.outcomes ++ [(i, RpcOutcome.resolved (payload i))] }
      hnd'.2 hrest
    refine ⟨?_, ?_⟩
    · rw [this.1]
      simp
    · intro j
      rw [this.2 j]
      simp only [List.mem_filter, List.mem_cons]
      constructor
      · rintro ⟨⟨hjp, hne⟩, hjr⟩
        refine ⟨hjp, ?_⟩
        rintro (h | h)
        · subst h; simp at hne
        · exact hjr h
      · rintro ⟨hjp, hnot⟩
        have hji : j ≠ i := fun h => hnot (Or.inl h)
        exact ⟨⟨hjp, by simp [hji]⟩, fun h => hnot (Or.inr h)⟩

end JsonRpcClient

namespace JsonRpcClient

/-- The client state after issuing `N` requests on a fresh session and
then receiving the responses for the ids in `l` (in that order), each
response `i` carrying `payload i`. -/
def finalState (N : Nat) (payload : Nat → String) (l : List Nat) : RpcState :=
  handleMessages (sendRequests initialRpcState N)
    (l.map fun i => responseFor i (payload i))

lemma filter_fst_map (g : Nat → RpcOutcome) :
    ∀ (l : List Nat), l.Nodup → ∀ i ∈ l,
      (l.map (fun j => (j, g j))).filter (fun o => o.1 == i) = [(i, g i)] := by
  intro l
  induction l with
  | nil => intro _ i hi; simp at hi
  | cons a rest ih =>
    intro hnd i hi
    have hnd' := List.nodup_cons.1 hnd
    rcases List.mem_cons.1 hi with h | h
    · subst h
      have hrest : (rest.map (fun j => (j, g j))).filter (fun o => o.1 == i) = [] := by
        rw [List.filter_eq_nil_iff]
        intro o ho
        rcases List.mem_map.1 ho with ⟨j, hj, rfl⟩
        have : j ≠ i := fun h => hnd'.1 (h ▸ hj)
        simp [this]
      simp [hrest]
    · have hai : a ≠ i := by
        intro he; subst he; exact hnd'.1 h
      have := ih hnd'.2 i h
      simp [hai, this]

end JsonRpcClient

/-- C1: issuing `N` requests on one fresh RpcSession assigns the ids
`0, …, N-1` from the monotone counter; delivering the `N` responses in
an arbitrary order `l` (any permutation of those ids) resolves each
pending request with exactly the payload of the response whose id
matches its own request id, empties the pending map, settles every id
exactly once, and any further response is a no-op (an entry is never
resolved twice). -/
theorem rpc_correlation (N : Nat) (payload : Nat → String) (l : List Nat)
    (hperm : l.Perm (List.range N)) :
    (JsonRpcClient.sendRequests JsonRpcClient.initialRpcState N).pending
        = List.range N ∧
    (JsonRpcClient.finalState N payload l).pending = [] ∧
    (JsonRpcClient.finalState N payload l).outcomes
        = l.map (fun i => (i, JsonRpcClient.RpcOutcome.resolved (payload i))) ∧
    (∀ i, i < N →
      (JsonRpcClient.finalState N payload l).outcomes.filter (fun o => o.1 == i)
        = [(i, JsonRpcClient.RpcOutcome.resolved (payload i))]) ∧
    (∀ i p2,
      JsonRpcClient.handleMessage (JsonRpcClient.finalState N payload l)
        (JsonRpcClient.responseFor i p2) = JsonRpcClient.finalState N payload l) := by
  have hs0 : JsonRpcClient.sendRequests JsonRpcClient.initialRpcState N
      = ⟨N, List.range N, []⟩ := by
    rw [JsonRpcClient.initialRpcState, JsonRpcClient.sendRequests_spec 0 [] [] N]
    simp [List.range_eq_range']
  have hnd : l.Nodup := hperm.nodup_iff.2 (List.nodup_range N)
  have hmem : ∀ i ∈ l, i ∈ (JsonRpcClient.sendRequests JsonRpcClient.initialRpcState N).pending := by
    intro i hi
    rw [hs0]
    exact hperm.mem_iff.1 hi
  have hcorr := JsonRpcClient.handleMessages_correlate payload l
    (JsonRpcClient.sendRequests JsonRpcClient.initialRpcState N) hnd hmem
  have houtc : (JsonRpcClient.finalState N payload l).outcomes
      = l.map (fun i => (i, JsonRpcClient.RpcOutcome.resolved (payload i))) := by
    rw [JsonRpcClient.finalState, hcorr.1, hs0]
    rfl
  have hpend : (JsonRpcClient.finalState N payload l).pending = [] := by
    rw [List.eq_nil_iff_forall_not_mem]
    intro j hj
    rw [JsonRpcClient.finalState] at hj
    have := (hcorr.2 j).1 hj
    rw [hs0] at this
    exact this.2 (hperm.mem_iff.2 this.1)
  refine ⟨by rw [hs0], hpend, houtc, ?_, ?_⟩
  · intro i hi
    rw [houtc]
    exact JsonRpcClient.filter_fst_map (fun j => JsonRpcClient.RpcOutcome.resolved (payload j))
      l hnd i (hperm.mem_iff.2 (List.mem_range.2 hi))
  · intro i p2
    apply JsonRpcClient.handleMessage_responseFor_not_mem
    rw [hpend]
    simp

/-- Witness for C1: two requests answered out of order still resolve to
their own payloads, in arrival order, leaving no pending entry. -/
theorem rpc_correlation_witness :
    (JsonRpcClient.finalState 2 (fun i => toString i) [1, 0]).pending = [] ∧
    (JsonRpcClient.finalState 2 (fun i => toString i) [1, 0]).outcomes
      = [(1, JsonRpcClient.RpcOutcome.resolved "1"),
         (0, JsonRpcClient.RpcOutcome.resolved "0")] := by
  have h := rpc_correlation 2 (fun i => toString i) [1, 0] (by decide)
  exact ⟨h.2.1, by rw [h.2.2.1]; rfl⟩

/-! ## PersistentShell (src/repl/PersistentShell.ts) -/

namespace PersistentShell

/-- The fixed sentinel marker (`this.delimiter`). -/
def shellDelimiter : String := "MENTIS_SHELL_DELIMITER"

/-- The shell session's mutable fields plus observation logs:
`buffer` accumulates subprocess output, `busy` is whether
`resolveCallback` is set (a command is in flight), `writes` logs every
string written to the subprocess's stdin, and `resolvedOutputs` logs
each value a pending promise was resolved with, in order. -/
structure ShellState where
  buffer : String
  busy : Bool
  writes : List String
  resolvedOutputs : List String
deriving DecidableEq, Repr

/-- A freshly spawned, idle session. -/
def initialShellState : ShellState :=
  { buffer := "", busy := false, writes := [], resolvedOutputs := [] }

/-- Whether `pat` is a prefix of `l`. -/
def isPrefixChars (pat l : List Char) : Bool :=
  match pat, l with
  | [], _ => true
  | _ :: _, [] => false
  | p :: ps, c :: cs => p == c && isPrefixChars ps cs

/-- Remove the first occurrence of `pat` from `l`; `none` when `pat`
does not occur. -/
def removeFirstOccur (pat : List Char) : List Char → Option (List Char)
  | [] => none
  | c :: cs =>
    if isPrefixChars pat (c :: cs) then some ((c :: cs).drop pat.length)
    else
      match removeFirstOccur pat cs with
      | some rest => some (c :: rest)
      | none => none

/-- Whether `pat` occurs in `s` (JavaScript `String.prototype.includes`;
the delimiter is never empty). -/
def includesSubstr (s pat : String) : Bool :=
  (removeFirstOccur pat.data s.data).isSome

/-- Remove the first occurrence of `pat` from `s` (JavaScript
`String.prototype.replace` with a plain-string pattern and empty
replacement). -/
def replaceFirst (s pat : String) : String :=
  match removeFirstOccur pat.data s.data with
  | some r => String.mk r
  | none => s

/-- Strip leading and trailing whitespace (JavaScript
`String.prototype.trim`). -/
def trimString (s : String) : String :=
  String.mk (((s.data.dropWhile Char.isWhitespace).reverse.dropWhile
    Char.isWhitespace).reverse)

/-- `PersistentShell.handleOutput`: append the chunk to the buffer;
once the buffer contains the delimiter, strip it, trim the rest,
resolve the pending promise (if one is set) with that output, and
clear the buffer. -/
def handleOutput (st : ShellState) (chunk : String) : ShellState :=
  let buffer := st.buffer ++ chunk
  if includesSubstr buffer shellDelimiter then
    let output := trimString (replaceFirst buffer shellDelimiter)
    if st.busy then
      { st with buffer := "", busy := false,
                resolvedOutputs := st.resolvedOutputs ++ [output] }
    else
      { st with buffer := "" }
  else
    { st with buffer := buffer }

/-- `command.replace(/\n/g, '; ')`: replace every embedded newline by
a statement separator. -/
def cleanCommandChars : List Char → List Char
  | [] => []
  | c :: cs =>
    if c == '\n' then ';' :: ' ' :: cleanCommandChars cs
    else c :: cleanCommandChars cs

def cleanCommand (command : String) : String :=
  String.mk (cleanCommandChars command.data)

/-- The full line written to the shell's stdin: the cleaned command
followed by the sentinel echo and a newline. -/
def fullCommandFor (command : String) : String :=
  cleanCommand command ++ "; echo \"" ++ shellDelimiter ++ "\"\n"

/-- `PersistentShell.execute`: if a command is already in flight, throw
the busy error without touching any state; otherwise mark the session
busy, clear the buffer, and write the command plus sentinel echo.  The
thrown error is returned in the `Except`, the (possibly unchanged)
session state alongside it. -/
def execute (st : ShellState) (command : String) : ShellState × Except String Unit :=
  if st.busy then
    (st, Except.error "Shell is busy execution another command.")
  else
    ({ st with busy := true, buffer := "",
               writes := st.writes ++ [fullCommandFor command] },
     Except.ok ())

/-- Run one `execute` call and then deliver the given output chunks. -/
def run (st : ShellState) (command : String) (chunks : List String) :
    ShellState × Except String Unit :=
  match execute st command with
  | (s1, Except.ok ()) => (chunks.foldl handleOutput s1, Except.ok ())
  | (s1, Except.error e) => (s1, Except.error e)

end PersistentShell

/-- C6: on an idle session, `execute "echo hi"` followed by the shell's
output (whether it arrives as one chunk or split across two) resolves
the promise with exactly `"hi"` — sentinel and surrounding whitespace
stripped — and a command that produces no output resolves with the
empty string, leaving the session idle rather than pending. -/
theorem sentinel_correctness :
    (PersistentShell.run PersistentShell.initialShellState "echo hi"
        ["hi\n", "MENTIS_SHELL_DELIMITER\n"]).1.resolvedOutputs = ["hi"] ∧
    (PersistentShell.run PersistentShell.initialShellState "echo hi"
        ["hi\nMENTIS_SHELL_DELIMITER\n"]).1.resolvedOutputs = ["hi"] ∧
    (PersistentShell.run PersistentShell.initialShellState "true"
        ["MENTIS_SHELL_DELIMITER\n"]).1.resolvedOutputs = [""] ∧
    (PersistentShell.run PersistentShell.initialShellState "true"
        ["MENTIS_SHELL_DELIMITER\n"]).1.busy = false ∧
    (PersistentShell.run PersistentShell.initialShellState "echo hi"
        ["hi\n", "MENTIS_SHELL_DELIMITER\n"]).1.busy = false := by
  refine ⟨?_, ?_, ?_, ?_, ?_⟩ <;> rfl

/-- C7: if a command is in flight (`busy`), calling `execute` again
fails with the busy error and changes nothing — the new command is not
written and the in-flight state is untouched; and starting from an idle
session, a successful `execute` marks the session busy, so an
immediately following `execute` fails the same way: at most one command
is ever outstanding. -/
theorem shell_single_flight (st : PersistentShell.ShellState) (c c2 : String) :
    (st.busy = true →
      PersistentShell.execute st c =
        (st, Except.error "Shell is busy execution another command.")) ∧
    (st.busy = false →
      (PersistentShell.execute st c).1.busy = true ∧
      (PersistentShell.execute st c).1.writes =
        st.writes ++ [PersistentShell.fullCommandFor c] ∧
      PersistentShell.execute (PersistentShell.execute st c).1 c2 =
        ((PersistentShell.execute st c).1,
         Except.error "Shell is busy execution another command.")) := by
  constructor
  · intro h
    simp [PersistentShell.execute, h]
  · intro h
    simp [PersistentShell.execute, h]

/-- Witness for C7: on a busy session the second `execute` errors and
leaves the session exactly as it was. -/
theorem shell_single_flight_witness :
    PersistentShell.execute
        { buffer := "", busy := true, writes := ["w"], resolvedOutputs := [] } "ls" =
      ({ buffer := "", busy := true, writes := ["w"], resolvedOutputs := [] },
       Except.error "Shell is busy execution another command.") :=
  (shell_single_flight
      { buffer := "", busy := true, writes := ["w"], resolvedOutputs := [] }
      "ls" "pwd").1 rfl

/-! ## McpToolAdapter (src/mcp/McpClient.ts) -/

namespace McpToolAdapter

/-- A remote content block as returned by `tools/call`
(`{ type, text? }`); blocks of non-text type carry no `text` field. -/
structure ContentBlock where
  type : String
  text : Option String
deriving DecidableEq, Repr

/-- The remote result of `tools/call`:
`{ content: [...], isError: boolean }`; `content` is `none` when the
field is absent or not an array. -/
structure CallToolResult where
  isError : Bool
  content : Option (List ContentBlock)
deriving DecidableEq, Repr

/-- `McpToolAdapter.execute` applied to the awaited `callTool` result:
throw on the error flag, otherwise join the content blocks' `text`
fields with newlines — JavaScript `Array.prototype.join` renders an
`undefined` element (a block without text) as the empty string, but the
block still occupies a joined slot.  `stringified` stands for
`JSON.stringify(result)`, used when `content` is not an array. -/
def execute (result : CallToolResult) (stringified : String) :
    Except String String :=
  if result.isError then Except.error "MCP Tool Error"
  else
    match result.content with
    | some blocks =>
      Except.ok (String.intercalate "\n" (blocks.map (fun c => c.text.getD "")))
    | none => Except.ok stringified

/-- Modelled from the spec sentence the claim quotes: flatten the
content blocks by concatenating exactly those that carry a text
payload (joined with the same newline separator the code uses). -/
def specTextConcat (blocks : List ContentBlock) : String :=
  String.intercalate "\n"
    ((blocks.filter (fun c => c.text.isSome)).map (fun c => c.text.getD ""))

end McpToolAdapter

/-- C5 counterexample: on a successful remote result whose content is a
text block `"a"` followed by a block without a text payload, the code
returns `"a\n"` — the payload-less block still contributes a joined
slot — whereas concatenating exactly the blocks that carry a text
payload gives `"a"`.  The claim's description of the returned string is
therefore false on this input. -/
theorem mcp_text_concat_counterexample :
    McpToolAdapter.execute
        { isError := false
          content := some [{ type := "text", text := some "a" },
                           { type := "image", text := none }] } "st"
      = Except.ok "a\n" ∧
    McpToolAdapter.specTextConcat
        [{ type := "text", text := some "a" },
         { type := "image", text := none }] = "a" ∧
    McpToolAdapter.execute
        { isError := false
          content := some [{ type := "text", text := some "a" },
                           { type := "image", text := none }] } "st"
      ≠ Except.ok (McpToolAdapter.specTextConcat
          [{ type := "text", text := some "a" },
           { type := "image", text := none }]) := by
  have h1 : McpToolAdapter.execute
      { isError := false
        content := some [{ type := "text", text := some "a" },
                         { type := "image", text := none }] } "st"
      = Except.ok "a\n" := rfl
  have h2 : McpToolAdapter.specTextConcat
      [{ type := "text", text := some "a" },
       { type := "image", text := none }] = "a" := rfl
  refine ⟨h1, h2, ?_⟩
  rw [h1, h2]
  intro h
  have := Except.ok.inj h
  exact absurd this (by decide)

/-- C5 amended: `invoke` fails with an error whenever the remote result
carries the error flag, and otherwise returns the content blocks' text
payloads joined by newline separators, where a block without a text
payload contributes an empty segment; on inputs whose blocks all carry
a text payload this coincides with concatenating exactly the text
blocks. -/
theorem mcp_invoke_amended (r : McpToolAdapter.CallToolResult)
    (stringified : String) (blocks : List McpToolAdapter.ContentBlock) :
    (r.isError = true →
      McpToolAdapter.execute r stringified = Except.error "MCP Tool Error") ∧
    (r.isError = false → r.content = some blocks →
      McpToolAdapter.execute r stringified =
        Except.ok (String.intercalate "\n"
          (blocks.map (fun c => c.text.getD "")))) ∧
    ((∀ c ∈ blocks, c.text.isSome = true) →
      String.intercalate "\n" (blocks.map (fun c => c.text.getD "")) =
        McpToolAdapter.specTextConcat blocks) := by
  refine ⟨?_, ?_, ?_⟩
  · intro h
    simp [McpToolAdapter.execute, h]
  · intro h hc
    simp [McpToolAdapter.execute, h, hc]
  · intro h
    rw [McpToolAdapter.specTextConcat, List.filter_eq_self.2 h]

/-- Witness for the amended C5 at a concrete error-flagged result and a
concrete all-text block list. -/
theorem mcp_invoke_amended_witness :
    McpToolAdapter.execute { isError := true, content := none } "st"
        = Except.error "MCP Tool Error" ∧
    String.intercalate "\n"
        (([{ type := "text", text := some "x" }] :
            List McpToolAdapter.ContentBlock).map (fun c => c.text.getD "")) =
      McpToolAdapter.specTextConcat [{ type := "text", text := some "x" }] := by
  have h := mcp_invoke_amended { isError := true, content := none } "st"
    [{ type := "text", text := some "x" }]
  exact ⟨h.1 rfl, h.2.2 (by decide)⟩

/-! ## ReplManager.handleChat tool-execution loop (src/repl/ReplManager.ts)

The `while (response.tool_calls ...)` body iterates over the batch with
`for (const toolCall of response.tool_calls)`.  The embedding below
models one batch: the per-iteration abort check, `JSON.parse` of the
arguments (outside the per-tool try/catch), the `write_file`
confirmation prompt, tool lookup by name, the per-tool try/catch, and
the appended `tool` messages.  Executions of `tool.execute` are logged
as start/finish events so that scheduling order is observable. -/

namespace ReplManager

/-- A tool call from the model response (`ToolCall` of
ModelInterface.ts, with `function.name` / `function.arguments`
flattened). -/
structure ToolCall where
  id : String
  name : String
  arguments : String
deriving DecidableEq, Repr

/-- The parsed form of an arguments string (`JSON.parse` result),
treated opaquely. -/
abbrev ParsedArgs : Type := String

/-- A registered tool: a name and an `execute` that either returns a
result string or throws (`Except.error` carries `e.message`). -/
structure ToolImpl where
  name : String
  execute : ParsedArgs → Except String String

/-- Observable scheduling events: `tool.execute` being entered and its
awaited promise settling. -/
inductive ToolEvent where
  | start (id : String)
  | finish (id : String)
deriving DecidableEq, Repr

/-- How one batch ends: the loop body ran to completion, the turn was
aborted with `Request cancelled by user`, or a thrown error (such as a
`JSON.parse` failure) escaped to the top-level catch, which reports it
as a model-response error. -/
inductive TurnOutcome where
  | completed
  | cancelled
  | errored
deriving DecidableEq, Repr

/-- The loop's environment: the registered tools, the `JSON.parse`
outcome per arguments string, whether the active skill allow-lists
`Write` (`isToolAllowedBySkill('Write')`), the user's confirmation
answer for the call at each batch index, and when (measured in
completed calls) the escape-key abort flag flips — `none` means it
never does. -/
structure LoopEnv where
  tools : List ToolImpl
  parseArgs : String → Option ParsedArgs
  skillAllowsWrite : Bool
  confirm : Nat → Bool
  cancelAfter : Option Nat

/-- Whether `controller.signal.aborted` is set once `i` calls of the
batch have completed: the flag flips once and stays set. -/
def isAborted (env : LoopEnv) (i : Nat) : Bool :=
  match env.cancelAfter with
  | none => false
  | some k => decide (k ≤ i)

/-- `this.tools.find(t => t.name === toolName)`. -/
def findTool (env : LoopEnv) (toolName : String) : Option ToolImpl :=
  env.tools.find? (fun t => t.name == toolName)

/-- Dispatch one call: look the tool up by name; a found tool's
`execute` runs inside try/catch, a thrown failure becoming the result
text; an unknown name yields an error result without invoking
anything.  Returns the result string and the execution events. -/
def dispatchTool (env : LoopEnv) (tc : ToolCall) (args : ParsedArgs) :
    String × List ToolEvent :=
  match findTool env tc.name with
  | some t =>
    match t.execute args with
    | Except.ok r => (r, [ToolEvent.start tc.id, ToolEvent.finish tc.id])
    | Except.error e =>
      ("Error: " ++ e, [ToolEvent.start tc.id, ToolEvent.finish tc.id])
  | none => ("Error: Tool " ++ tc.name ++ " not found.", [])

/-- The `tool` message appended for a call. -/
def toolMessage (tc : ToolCall) (content : String) : ChatMessage :=
  { role := Role.tool, content := content,
    tool_call_id := some tc.id, name := some tc.name }

/-- The `for (const toolCall of response.tool_calls)` loop, followed by
the post-loop abort check.  `i` counts completed calls (for the abort
flag and the confirmation prompt), `msgs` is the history suffix
appended so far, `tr` the event trace so far. -/
def runToolCalls (env : LoopEnv) :
    List ToolCall → Nat → List ChatMessage → List ToolEvent →
      List ChatMessage × List ToolEvent × TurnOutcome
  | [], i, msgs, tr =>
    if isAborted env i then (msgs, tr, TurnOutcome.cancelled)
    else (msgs, tr, TurnOutcome.completed)
  | tc :: rest, i, msgs, tr =>
    if isAborted env i then (msgs, tr, TurnOutcome.cancelled)
    else
      match env.parseArgs tc.arguments with
      | none => (msgs, tr, TurnOutcome.errored)
      | some args =>
        if tc.name == "write_file" && ! env.skillAllowsWrite then
          if env.confirm i then
            let d := dispatchTool env tc args
            runToolCalls env rest (i + 1) (msgs ++ [toolMessage tc d.1]) (tr ++ d.2)
          else
            runToolCalls env rest (i + 1)
              (msgs ++ [toolMessage tc "Error: User rejected write operation."]) tr
        else
          let d := dispatchTool env tc args
          runToolCalls env rest (i + 1) (msgs ++ [toolMessage tc d.1]) (tr ++ d.2)

end ReplManager

/-- C3: when a `write_file` call not allow-listed by the active skill
is declined by the user, the loop appends a `tool` message whose
content is the rejection string and whose `tool_call_id` is that call's
id, no execution event is emitted for it (the underlying `execute` is
never invoked), and the loop continues with the remaining calls. -/
theorem confirmation_decline (env : ReplManager.LoopEnv)
    (tc : ReplManager.ToolCall) (rest : List ReplManager.ToolCall) (i : Nat)
    (msgs : List ChatMessage) (tr : List ReplManager.ToolEvent)
    (args : ReplManager.ParsedArgs)
    (hn : ReplManager.isAborted env i = false)
    (hw : tc.name = "write_file")
    (hs : env.skillAllowsWrite = false)
    (hp : env.parseArgs tc.arguments = some args)
    (hd : env.confirm i = false) :
    ReplManager.runToolCalls env (tc :: rest) i msgs tr =
      ReplManager.runToolCalls env rest (i + 1)
        (msgs ++ [ReplManager.toolMessage tc "Error: User rejected write operation."])
        tr := by
  simp [ReplManager.runToolCalls, hn, hw, hs, hp, hd]

/-- Witness for C3: a declined `write_file` call appends exactly the
rejection message and invokes nothing. -/
theorem confirmation_decline_witness :
    ReplManager.runToolCalls
        { tools := [{ name := "write_file", execute := fun _ => Except.ok "done" }]
          parseArgs := fun _ => some "a"
          skillAllowsWrite := false
          confirm := fun _ => false
          cancelAfter := none }
        [{ id := "1", name := "write_file", arguments := "x" }] 0 [] [] =
      ReplManager.runToolCalls
        { tools := [{ name := "write_file", execute := fun _ => Except.ok "done" }]
          parseArgs := fun _ => some "a"
          skillAllowsWrite := false
          confirm := fun _ => false
          cancelAfter := none }
        [] 1
        [ReplManager.toolMessage { id := "1", name := "write_file", arguments := "x" }
          "Error: User rejected write operation."] [] :=
  confirmation_decline
    { tools := [{ name := "write_file", execute := fun _ => Except.ok "done" }]
      parseArgs := fun _ => some "a"
      skillAllowsWrite := false
      confirm := fun _ => false
      cancelAfter := none }
    { id := "1", name := "write_file", arguments := "x" } [] 0 [] [] "a"
    rfl rfl rfl rfl rfl

/-- C4: once the abort flag is set after `i` completed calls, the loop
starts no further call of the batch — no execution event is added, no
further `tool` message is appended, every message already appended
stays exactly as it is — and the turn ends with the cancelled
outcome. -/
theorem cancellation_boundary (env : ReplManager.LoopEnv)
    (cs : List ReplManager.ToolCall) (i : Nat) (msgs : List ChatMessage)
    (tr : List ReplManager.ToolEvent)
    (h : ReplManager.isAborted env i = true) :
    ReplManager.runToolCalls env cs i msgs tr =
      (msgs, tr, ReplManager.TurnOutcome.cancelled) := by
  cases cs <;> simp [ReplManager.runToolCalls, h]

/-- Witness for C4: cancellation raised after the first of two calls
leaves the first call's appended result in place, never starts the
second call, and ends the turn cancelled. -/
theorem cancellation_boundary_witness :
    ReplManager.runToolCalls
        { tools := [{ name := "read_file", execute := fun _ => Except.ok "r" }]
          parseArgs := fun _ => some "a"
          skillAllowsWrite := false
          confirm := fun _ => true
          cancelAfter := some 1 }
        [{ id := "b", name := "read_file", arguments := "y" }] 1
        [ReplManager.toolMessage { id := "a", name := "read_file", arguments := "x" } "r"]
        [ReplManager.ToolEvent.start "a", ReplManager.ToolEvent.finish "a"] =
      ([ReplManager.toolMessage { id := "a", name := "read_file", arguments := "x" } "r"],
       [ReplManager.ToolEvent.start "a", ReplManager.ToolEvent.finish "a"],
       ReplManager.TurnOutcome.cancelled) :=
  cancellation_boundary
    { tools := [{ name := "read_file", execute := fun _ => Except.ok "r" }]
      parseArgs := fun _ => some "a"
      skillAllowsWrite := false
      confirm := fun _ => true
      cancelAfter := some 1 }
    [{ id := "b", name := "read_file", arguments := "y" }] 1
    [ReplManager.toolMessage { id := "a", name := "read_file", arguments := "x" } "r"]
    [ReplManager.ToolEvent.start "a", ReplManager.ToolEvent.finish "a"]
    rfl

/-- C10: a tool call whose arguments string fails `JSON.parse` throws
outside the per-tool try/catch, so the batch stops there: no `tool`
message is appended for that call or any later one, no execution event
is emitted, and the turn ends on the top-level error path (reported as
a model-response error), not as that tool's result text. -/
theorem invalid_json_aborts (env : ReplManager.LoopEnv)
    (tc : ReplManager.ToolCall) (rest : List ReplManager.ToolCall) (i : Nat)
    (msgs : List ChatMessage) (tr : List ReplManager.ToolEvent)
    (hn : ReplManager.isAborted env i = false)
    (hp : env.parseArgs tc.arguments = none) :
    ReplManager.runToolCalls env (tc :: rest) i msgs tr =
      (msgs, tr, ReplManager.TurnOutcome.errored) := by
  simp [ReplManager.runToolCalls, hn, hp]

/-- Witness for C10: a malformed arguments string aborts the batch with
the top-level error outcome and appends nothing. -/
theorem invalid_json_aborts_witness :
    ReplManager.runToolCalls
        { tools := [{ name := "read_file", execute := fun _ => Except.ok "r" }]
          parseArgs := fun _ => none
          skillAllowsWrite := false
          confirm := fun _ => true
          cancelAfter := none }
        [{ id := "a", name := "read_file", arguments := "not json" },
         { id := "b", name := "read_file", arguments := "y" }] 0 [] [] =
      ([], [], ReplManager.TurnOutcome.errored) :=
  invalid_json_aborts
    { tools := [{ name := "read_file", execute := fun _ => Except.ok "r" }]
      parseArgs := fun _ => none
      skillAllowsWrite := false
      confirm := fun _ => true
      cancelAfter := none }
    { id := "a", name := "read_file", arguments := "not json" }
    [{ id := "b", name := "read_file", arguments := "y" }] 0 [] []
    rfl rfl

namespace ReplManager

lemma runToolCalls_no_cancel (env : LoopEnv) (hc : env.cancelAfter = none) :
    ∀ (cs : List ToolCall) (i : Nat) (msgs : List ChatMessage)
      (tr : List ToolEvent),
      (∀ tc ∈ cs, (env.parseArgs tc.arguments).isSome = true) →
      (runToolCalls env cs i msgs tr).2.2 = TurnOutcome.completed ∧
      (runToolCalls env cs i msgs tr).1.map (fun m => m.tool_call_id) =
        msgs.map (fun m => m.tool_call_id) ++ cs.map (fun tc => some tc.id) := by
  intro cs
  induction cs with
  | nil =>
    intro i msgs tr _
    simp [runToolCalls, isAborted, hc]
  | cons tc rest ih =>
    intro i msgs tr hp
    have hn : isAborted env i = false := by simp [isAborted, hc]
    obtain ⟨args, hargs⟩ :=
      Option.isSome_iff_exists.1 (hp tc (List.mem_cons_self tc rest))
    have hprest : ∀ t ∈ rest, (env.parseArgs t.arguments).isSome = true :=
      fun t ht => hp t (List.mem_cons_of_mem tc ht)
    simp only [runToolCalls, hn, Bool.false_eq_true, if_false, hargs]
    by_cases hw : (tc.name == "write_file" && ! env.skillAllowsWrite) = true
    · rw [if_pos hw]
      by_cases hcf : env.confirm i = true
      · rw [if_pos hcf]
        have := ih (i + 1) (msgs ++ [toolMessage tc (dispatchTool env tc args).1])
          (tr ++ (dispatchTool env tc args).2) hprest
        refine ⟨this.1, ?_⟩
        rw [this.2]
        simp [toolMessage]
      · rw [if_neg hcf]
        have := ih (i + 1)
          (msgs ++ [toolMessage tc "Error: User rejected write operation."]) tr hprest
        refine ⟨this.1, ?_⟩
        rw [this.2]
        simp [toolMessage]
    · rw [if_neg hw]
      have := ih (i + 1) (msgs ++ [toolMessage tc (dispatchTool env tc args).1])
        (tr ++ (dispatchTool env tc args).2) hprest
      refine ⟨this.1, ?_⟩
      rw [this.2]
      simp [toolMessage]

lemma filter_id_eq_nil (a : String) :
    ∀ (msgs : List ChatMessage) (ids : List String),
      msgs.map (fun m => m.tool_call_id) = ids.map some → a ∉ ids →
      msgs.filter (fun m => m.tool_call_id == some a) = [] := by
  intro msgs ids hmap hna
  rw [List.filter_eq_nil_iff]
  intro m hm
  have : m.tool_call_id ∈ ids.map some := by
    rw [← hmap]
    exact List.mem_map_of_mem (fun m => m.tool_call_id) hm
  rcases List.mem_map.1 this with ⟨c, hc, hce⟩
  have : c ≠ a := fun h => hna (h ▸ hc)
  rw [← hce]
  simp [this]

lemma count_filter_of_map_ids (a : String) :
    ∀ (ids : List String) (msgs : List ChatMessage),
      msgs.map (fun m => m.tool_call_id) = ids.map some → ids.Nodup →
      a ∈ ids →
      (msgs.filter (fun m => m.tool_call_id == some a)).length = 1 := by
  intro ids
  induction ids with
  | nil => intro msgs _ _ ha; simp at ha
  | cons b bs ih =>
    intro msgs hmap hnd ha
    cases msgs with
    | nil => simp at hmap
    | cons m ms =>
      simp only [List.map_cons, List.cons.injEq] at hmap
      have hnd' := List.nodup_cons.1 hnd
      rcases List.mem_cons.1 ha with h | h
      · subst h
        have hnil : ms.filter (fun m => m.tool_call_id == some a) = [] :=
          filter_id_eq_nil a ms bs hmap.2 hnd'.1
        rw [List.filter_cons]
        rw [if_pos]
        · simp [hnil]
        · rw [hmap.1]
          simp
      · have hba : b ≠ a := fun he => hnd'.1 (he ▸ h)
        rw [List.filter_cons, if_neg]
        · exact ih ms hmap.2 hnd'.2 h
        · rw [hmap.1]
          simp only [beq_iff_eq, Option.some.injEq]
          exact hba

end ReplManager

/-- C8: for a batch of tool calls with pairwise-distinct ids, run
without cancellation and with all argument strings parsing, the loop
completes and the appended `tool` messages contain exactly one message
whose `tool_call_id` equals each call's id. -/
theorem toolcall_id_mapping (env : ReplManager.LoopEnv)
    (cs : List ReplManager.ToolCall) (i : Nat)
    (hc : env.cancelAfter = none)
    (hp : ∀ tc ∈ cs, (env.parseArgs tc.arguments).isSome = true)
    (hnd : (cs.map ReplManager.ToolCall.id).Nodup) :
    (ReplManager.runToolCalls env cs i [] []).2.2 =
      ReplManager.TurnOutcome.completed ∧
    ∀ a ∈ cs.map ReplManager.ToolCall.id,
      ((ReplManager.runToolCalls env cs i [] []).1.filter
        (fun m => m.tool_call_id == some a)).length = 1 := by
  have h := ReplManager.runToolCalls_no_cancel env hc cs i [] [] hp
  refine ⟨h.1, ?_⟩
  intro a ha
  have hmap : (ReplManager.runToolCalls env cs i [] []).1.map
      (fun m => m.tool_call_id) = (cs.map ReplManager.ToolCall.id).map some := by
    rw [h.2]
    simp [List.map_map]
  exact ReplManager.count_filter_of_map_ids a (cs.map ReplManager.ToolCall.id)
    (ReplManager.runToolCalls env cs i [] []).1 hmap hnd ha

/-- Witness for C8: two calls with ids `a` and `b` yield exactly one
tool message per id. -/
theorem toolcall_id_mapping_witness :
    ((ReplManager.runToolCalls
        { tools := [{ name := "read_file", execute := fun _ => Except.ok "r" }]
          parseArgs := fun _ => some "p"
          skillAllowsWrite := false
          confirm := fun _ => true
          cancelAfter := none }
        [{ id := "a", name := "read_file", arguments := "x" },
         { id := "b", name := "read_file", arguments := "y" }] 0 [] []).1.filter
      (fun m => m.tool_call_id == some "a")).length = 1 :=
  (toolcall_id_mapping
    { tools := [{ name := "read_file", execute := fun _ => Except.ok "r" }]
      parseArgs := fun _ => some "p"
      skillAllowsWrite := false
      confirm := fun _ => true
      cancelAfter := none }
    [{ id := "a", name := "read_file", arguments := "x" },
     { id := "b", name := "read_file", arguments := "y" }] 0
    rfl (fun tc _ => rfl) (by decide)).2 "a" (by decide)

namespace ReplManager

lemma dispatchTool_events (env : LoopEnv) (tc : ToolCall) (args : ParsedArgs)
    (hf : (findTool env tc.name).isSome = true) :
    (dispatchTool env tc args).2 =
      [ToolEvent.start tc.id, ToolEvent.finish tc.id] := by
  obtain ⟨t, ht⟩ := Option.isSome_iff_exists.1 hf
  simp only [dispatchTool, ht]
  cases h2 : t.execute args <;> simp [h2]

lemma runToolCalls_trace_seq (env : LoopEnv) (hc : env.cancelAfter = none) :
    ∀ (cs : List ToolCall) (i : Nat) (msgs : List ChatMessage)
      (tr : List ToolEvent),
      (∀ tc ∈ cs, (env.parseArgs tc.arguments).isSome = true) →
      (∀ tc ∈ cs, tc.name ≠ "write_file") →
      (∀ tc ∈ cs, (findTool env tc.name).isSome = true) →
      (runToolCalls env cs i msgs tr).2.1 =
        tr ++ cs.flatMap
          (fun tc => [ToolEvent.start tc.id, ToolEvent.finish tc.id]) := by
  intro cs
  induction cs with
  | nil =>
    intro i msgs tr _ _ _
    simp [runToolCalls, isAborted, hc]
  | cons tc rest ih =>
    intro i msgs tr hp hw hf
    have hn : isAborted env i = false := by simp [isAborted, hc]
    obtain ⟨args, hargs⟩ :=
      Option.isSome_iff_exists.1 (hp tc (List.mem_cons_self tc rest))
    have hwname : (tc.name == "write_file" && ! env.skillAllowsWrite) = false := by
      have := hw tc (List.mem_cons_self tc rest)
      simp [this]
    simp only [runToolCalls, hn, Bool.false_eq_true, if_false, hargs, hwname]
    rw [dispatchTool_events env tc args (hf tc (List.mem_cons_self tc rest))]
    rw [ih (i + 1) (msgs ++ [toolMessage tc (dispatchTool env tc args).1])
      (tr ++ [ToolEvent.start tc.id, ToolEvent.finish tc.id])
      (fun t ht => hp t (List.mem_cons_of_mem tc ht))
      (fun t ht => hw t (List.mem_cons_of_mem tc ht))
      (fun t ht => hf t (List.mem_cons_of_mem tc ht))]
    simp [List.flatMap_cons, List.append_assoc]

end ReplManager

/-- C9 counterexample: for a batch of two side-effect-free tool calls
(ids `a` and `b`, both read-only registry tools), the loop's event
trace is `start a, finish a, start b, finish b` — the second execution
is started only after the first one has finished, so the executions of
the claimed concurrent class are not fired without waiting on each
other: the code runs every call of the batch strictly sequentially. -/
theorem partition_concurrency_counterexample :
    (ReplManager.runToolCalls
        { tools := [{ name := "read_file", execute := fun _ => Except.ok "r" },
                    { name := "glob", execute := fun _ => Except.ok "g" }]
          parseArgs := fun _ => some "p"
          skillAllowsWrite := false
          confirm := fun _ => true
          cancelAfter := none }
        [{ id := "a", name := "read_file", arguments := "x" },
         { id := "b", name := "glob", arguments := "y" }] 0 [] []).2.1 =
      [ReplManager.ToolEvent.start "a", ReplManager.ToolEvent.finish "a",
       ReplManager.ToolEvent.start "b", ReplManager.ToolEvent.finish "b"] ∧
    ¬ ((ReplManager.runToolCalls
        { tools := [{ name := "read_file", execute := fun _ => Except.ok "r" },
                    { name := "glob", execute := fun _ => Except.ok "g" }]
          parseArgs := fun _ => some "p"
          skillAllowsWrite := false
          confirm := fun _ => true
          cancelAfter := none }
        [{ id := "a", name := "read_file", arguments := "x" },
         { id := "b", name := "glob", arguments := "y" }] 0 [] []).2.1.indexOf
          (ReplManager.ToolEvent.start "b") <
      (ReplManager.runToolCalls
        { tools := [{ name := "read_file", execute := fun _ => Except.ok "r" },
                    { name := "glob", execute := fun _ => Except.ok "g" }]
          parseArgs := fun _ => some "p"
          skillAllowsWrite := false
          confirm := fun _ => true
          cancelAfter := none }
        [{ id := "a", name := "read_file", arguments := "x" },
         { id := "b", name := "glob", arguments := "y" }] 0 [] []).2.1.indexOf
          (ReplManager.ToolEvent.finish "a")) := by
  refine ⟨by decide, by decide⟩

/-- C9 amended: tool calls are not partitioned into classes — every
call of a batch, side-effect-free or not, executes strictly
sequentially in the order received (each execution finishes before the
next one starts, as the flattened start/finish trace shows), each
execution's failure is caught locally and converted into that call's
result text, and the batch still completes. -/
theorem sequential_execution (env : ReplManager.LoopEnv)
    (cs : List ReplManager.ToolCall) (i : Nat) (msgs : List ChatMessage)
    (tr : List ReplManager.ToolEvent)
    (hc : env.cancelAfter = none)
    (hp : ∀ tc ∈ cs, (env.parseArgs tc.arguments).isSome = true)
    (hw : ∀ tc ∈ cs, tc.name ≠ "write_file")
    (hf : ∀ tc ∈ cs, (ReplManager.findTool env tc.name).isSome = true) :
    (ReplManager.runToolCalls env cs i msgs tr).2.1 =
      tr ++ cs.flatMap (fun tc =>
        [ReplManager.ToolEvent.start tc.id, ReplManager.ToolEvent.finish tc.id]) ∧
    (ReplManager.runToolCalls env cs i msgs tr).2.2 =
      ReplManager.TurnOutcome.completed :=
  ⟨ReplManager.runToolCalls_trace_seq env hc cs i msgs tr hp hw hf,
   (ReplManager.runToolCalls_no_cancel env hc cs i msgs tr hp).1⟩

/-- Witness for the amended C9: two read-only calls, the second of
whose tools throws, still produce a strictly sequential trace and a
completed batch (the failure is caught, not propagated). -/
theorem sequential_execution_witness :
    (ReplManager.runToolCalls
        { tools := [{ name := "read_file", execute := fun _ => Except.ok "r" },
                    { name := "glob", execute := fun _ => Except.error "boom" }]
          parseArgs := fun _ => some "p"
          skillAllowsWrite := false
          confirm := fun _ => true
          cancelAfter := none }
        [{ id := "a", name := "read_file", arguments := "x" },
         { id := "b", name := "glob", arguments := "y" }] 0 [] []).2.1 =
      [ReplManager.ToolEvent.start "a", ReplManager.ToolEvent.finish "a",
       ReplManager.ToolEvent.start "b", ReplManager.ToolEvent.finish "b"] ∧
    (ReplManager.runToolCalls
        { tools := [{ name := "read_file", execute := fun _ => Except.ok "r" },
                    { name := "glob", execute := fun _ => Except.error "boom" }]
          parseArgs := fun _ => some "p"
          skillAllowsWrite := false
          confirm := fun _ => true
          cancelAfter := none }
        [{ id := "a", name := "read_file", arguments := "x" },
         { id := "b", name := "glob", arguments := "y" }] 0 [] []).2.2 =
      ReplManager.TurnOutcome.completed := by
  have h := sequential_execution
    { tools := [{ name := "read_file", execute := fun _ => Except.ok "r" },
                { name := "glob", execute := fun _ => Except.error "boom" }]
      parseArgs := fun _ => some "p"
      skillAllowsWrite := false
      confirm := fun _ => true
      cancelAfter := none }
    [{ id := "a", name := "read_file", arguments := "x" },
     { id := "b", name := "glob", arguments := "y" }] 0 [] []
    rfl (fun tc _ => rfl) (by decide) (by decide)
  exact ⟨by rw [h.1]; rfl, h.2⟩
